import Mathlib

/-!
Shallow embedding of the waterfall-webgl2 core: the particle update shader
(`updateVertRawStr`), the obstacle map (`obstacle-map.js`), the blur kernel and
display shader of `Fluidify`, and the `Particles` buffer management.

Machine floats are modelled by exact real arithmetic (the repository itself
declares bit-exact floating point a non-goal); GLSL builtins (`length`,
`normalize`, `reflect`, `fract`, `step`, `smoothstep`, `cross`) are given their
specified real semantics.  Texture sampling is modelled as a function from
sample coordinates to texel channel values in `[0,1]`; screen-space derivative
builtins (`dFdx`, `dFdy`) become explicit inputs of the fragment function.
-/

namespace Waterfall

noncomputable section

/-- A 2-component vector, as in GLSL `vec2`. -/
abbrev Vec2 := ℝ × ℝ

/-- GLSL `dot` for `vec2`. -/
def dot (a b : Vec2) : ℝ := a.1 * b.1 + a.2 * b.2

/-- Componentwise vector addition. -/
def vadd (a b : Vec2) : Vec2 := (a.1 + b.1, a.2 + b.2)

/-- Componentwise vector subtraction. -/
def vsub (a b : Vec2) : Vec2 := (a.1 - b.1, a.2 - b.2)

/-- Scalar-vector multiplication. -/
def vscale (k : ℝ) (v : Vec2) : Vec2 := (k * v.1, k * v.2)

/-- GLSL `length` for `vec2`. -/
def glLength (v : Vec2) : ℝ := Real.sqrt (dot v v)

/-- GLSL `normalize`: `v / length(v)`. -/
def glNormalize (v : Vec2) : Vec2 := vscale (1 / glLength v) v

/-- GLSL `reflect(I, N) = I - 2 * dot(N, I) * N`. -/
def glReflect (i n : Vec2) : Vec2 := vsub i (vscale (2 * dot n i) n)

/-- GLSL `fract(x) = x - floor(x)`. -/
def glFract (x : ℝ) : ℝ := Int.fract x

/-- The shader's hash-based `random` function
(`fract(sin(dot(co.xy, vec2(12.9898,78.233))) * 43758.5453)`). -/
def random (co : Vec2) : ℝ :=
  glFract (Real.sin (dot co (12.9898, 78.233)) * 43758.5453)

/-- `decodeObstacle(texel) = 2.0 * texel.rg - 1.0` from the shared encoding
block of the particle shaders. -/
def decodeObstacle (texel : Vec2) : Vec2 := (2 * texel.1 - 1, 2 * texel.2 - 1)

/-- `POS_BANDWIDTH`: the `Particles` constructor sets
`_posBandwidth = 1.2 * Math.max(width, height)`. -/
def posBandwidth (W H : ℝ) : ℝ := 1.2 * max W H

/-- `MAX_SPEED`: the `Particles` constructor sets
`_maxSpeed = 0.5 * Math.min(width, height)`. -/
def maxSpeed (W H : ℝ) : ℝ := 0.5 * min W H

/-- The shader idiom `v *= min(1.0, c / length(v))`, used both for the bounce
rescale (`c = 0.1 * MAX_SPEED`) and the final clamp (`c = MAX_SPEED`). -/
def speedClamp (c : ℝ) (v : Vec2) : Vec2 := vscale (min 1 (c / glLength v)) v

/-- The bounce branch of `updateVertRawStr`:
`nextVel = reflect(nextVel, normalize(obstacleNormal));
 nextVel *= min(1.0, 0.1*MAX_SPEED/length(nextVel));`. -/
def bounce (m : ℝ) (n v : Vec2) : Vec2 :=
  speedClamp (0.1 * m) (glReflect v (glNormalize n))

/-- The horizontal wrap at the end of `updateVertRawStr`:
`if (nextPos.x < -0.5*POS_BANDWIDTH) nextPos.x += POS_BANDWIDTH;
 else if (nextPos.x > 0.5*POS_BANDWIDTH) nextPos.x -= POS_BANDWIDTH;`. -/
def wrapX (b x : ℝ) : ℝ :=
  if x < -0.5 * b then x + b else if 0.5 * b < x then x - b else x

/-- The velocity half of the `updateVertRawStr` vertex shader: acceleration,
reinjection velocity randomization, obstacle bounce, then the global speed
clamp, in source order.  `tex` maps a sampling coordinate to the texel of
`uObstaclesBuffer` there. -/
def updateNextVel (W H : ℝ) (tex : Vec2 → Vec2) (acc : Vec2) (dt : ℝ)
    (pos vel : Vec2) : Vec2 :=
  let nextVel0 := vadd vel (vscale dt acc)
  let nextVel1 :=
    if pos.2 < -0.5 * H then
      (0.1 * maxSpeed W H * (2 * random (vscale 100 pos) - 1),
       random (vadd pos vel))
    else nextVel0
  let obstacleNormal := decodeObstacle (tex (pos.1 / W + 0.5, pos.2 / H + 0.5))
  let nextVel2 :=
    if 0.1 < dot obstacleNormal obstacleNormal ∧ dot nextVel1 obstacleNormal < 0
    then bounce (maxSpeed W H) obstacleNormal nextVel1
    else nextVel1
  speedClamp (maxSpeed W H) nextVel2

/-- The position half of the `updateVertRawStr` vertex shader: Euler
integration of the clamped velocity, the (unconditional) obstacle nudge at the
tentative next position, the reinjection position override, and the horizontal
wrap, in source order. -/
def updateNextPos (W H : ℝ) (tex : Vec2 → Vec2) (acc : Vec2) (dt : ℝ)
    (pos vel : Vec2) : Vec2 :=
  let nextVel := updateNextVel W H tex acc dt pos vel
  let nextPos0 := vadd pos (vscale dt nextVel)
  let nudgeNormal :=
    decodeObstacle (tex (nextPos0.1 / W + 0.5, nextPos0.2 / H + 0.5))
  let nextPos1 := vadd nextPos0 (vscale dt nudgeNormal)
  let nextPos2 :=
    if pos.2 < -0.5 * H then
      ((random (vadd pos vel) - 0.5) * W,
       nextPos1.2 + H + 0.5 * random pos * (posBandwidth W H - H))
    else nextPos1
  (wrapX (posBandwidth W H) nextPos2.1, nextPos2.2)

/-- One application of the update shader to one particle: the pair of
transform-feedback outputs `(aNextPos, aNextVel)`. -/
def updateVert (W H : ℝ) (tex : Vec2 → Vec2) (acc : Vec2) (dt : ℝ)
    (pos vel : Vec2) : Vec2 × Vec2 :=
  (updateNextPos W H tex acc dt pos vel, updateNextVel W H tex acc dt pos vel)

/-! ### Blur kernel (`Fluidify.setKernelSize`) -/

/-- The raw kernel sample of `Fluidify.setKernelSize`:
`kernelFunction(x) = Math.exp(-4*x*x)` at `x = 2*i/kernelSize - 1`. -/
def kernelRaw (K i : ℕ) : ℝ := Real.exp (-4 * (2 * (i:ℝ) / (K:ℝ) - 1) ^ 2)

/-- The accumulated `total` of `Fluidify.setKernelSize`. -/
def kernelTotal (K : ℕ) : ℝ := ∑ i ∈ Finset.range K, kernelRaw K i

/-- The normalized kernel entry `kernel[i] /= total`. -/
def kernelWeight (K i : ℕ) : ℝ := kernelRaw K i / kernelTotal K

/-! ### Display shader of `Fluidify` (`displayFragStr`) -/

/-- A 3-component vector, as in GLSL `vec3`. -/
abbrev Vec3 := ℝ × ℝ × ℝ

/-- A 4-component vector, as in GLSL `vec4`. -/
abbrev Vec4 := ℝ × ℝ × ℝ × ℝ

/-- GLSL `dot` for `vec3`. -/
def dot3 (a b : Vec3) : ℝ := a.1 * b.1 + a.2.1 * b.2.1 + a.2.2 * b.2.2

/-- GLSL `cross`. -/
def cross3 (a b : Vec3) : Vec3 :=
  (a.2.1 * b.2.2 - a.2.2 * b.2.1,
   a.2.2 * b.1 - a.1 * b.2.2,
   a.1 * b.2.1 - a.2.1 * b.1)

/-- GLSL `length` for `vec3`. -/
def glLength3 (v : Vec3) : ℝ := Real.sqrt (dot3 v v)

/-- GLSL `normalize` for `vec3`. -/
def glNormalize3 (v : Vec3) : Vec3 :=
  (v.1 / glLength3 v, v.2.1 / glLength3 v, v.2.2 / glLength3 v)

/-- GLSL `step(edge, x)`: `0.0` if `x < edge`, else `1.0`. -/
def glStep (edge x : ℝ) : ℝ := if x < edge then 0 else 1

/-- GLSL `smoothstep(e0, e1, x)`:
`t = clamp((x-e0)/(e1-e0), 0, 1); t*t*(3-2*t)`. -/
def glSmoothstep (e0 e1 x : ℝ) : ℝ :=
  let t := min (max ((x - e0) / (e1 - e0)) 0) 1
  t * t * (3 - 2 * t)

/-- Scalar-vector multiplication for `vec4`. -/
def vscale4 (k : ℝ) (v : Vec4) : Vec4 :=
  (k * v.1, k * v.2.1, k * v.2.2.1, k * v.2.2.2)

/-- Componentwise addition for `vec4`. -/
def vadd4 (a b : Vec4) : Vec4 :=
  (a.1 + b.1, a.2.1 + b.2.1, a.2.2.1 + b.2.2.1, a.2.2.2 + b.2.2.2)

/-- The `.a` channel of a `vec4`. -/
def alpha (v : Vec4) : ℝ := v.2.2.2

/-- The fragment shader `displayFragStr` of `FluidifyShaders`, per pixel.
`texel` is the blurred-buffer sample at this pixel; `dLdx`, `dLdy` are the
values the hardware derivative builtins `dFdx(level)` / `dFdy(level)` return
there (screen-space derivatives are inputs of the per-pixel model). -/
def displayFrag (threshold : ℝ) (showNormals specular : Bool) (texel : Vec4)
    (dLdx dLdy : ℝ) : Vec4 :=
  let visible := glStep threshold (alpha texel)
  let n := glNormalize3 (cross3 (1 / 512, 0, dLdx) (0, 1 / 512, dLdy))
  let color : Vec4 :=
    if showNormals then (0.5 * n.1 + 0.5, 0.5 * n.2.1 + 0.5, 0.5 * n.2.2 + 0.5, 1)
    else texel
  let lightDir : Vec3 := (0.73, 0.73, -0.73)
  let specularColor : Vec4 := (1, 1, 1, 0)
  let specularFactor := glSmoothstep 0.99 1 (dot3 n lightDir)
  let spec0 := vscale4 (specularFactor ^ (0.1:ℝ)) specularColor
  let spec := if specular then spec0 else ((0, 0, 0, 0) : Vec4)
  vscale4 visible (vadd4 color spec)

/-- The shading the spec prescribes for a pixel at or above the threshold:
base color from the blurred color channels (or the encoded estimated normal in
the normal-visualization mode), plus the optional specular highlight from the
angle between the estimated normal and the fixed light direction.  Stated from
the spec's words, for comparison with `displayFrag`. -/
def displayShade (showNormals specular : Bool) (texel : Vec4)
    (dLdx dLdy : ℝ) : Vec4 :=
  let n := glNormalize3 (cross3 (1 / 512, 0, dLdx) (0, 1 / 512, dLdy))
  let base : Vec4 :=
    if showNormals then (0.5 * n.1 + 0.5, 0.5 * n.2.1 + 0.5, 0.5 * n.2.2 + 0.5, 1)
    else texel
  let highlight : Vec4 :=
    if specular then
      vscale4 ((glSmoothstep 0.99 1 (dot3 n (0.73, 0.73, -0.73))) ^ (0.1:ℝ))
        (1, 1, 1, 0)
    else (0, 0, 0, 0)
  vadd4 base highlight

/-! ### Static obstacle rasterization (`obstacle-map.js`) -/

/-- The effect of `ObstacleMap.addStaticObstacle` on one static-layer pixel
`p` (normalized coordinates in `[0,1]²`).  The pass draws a quad covering
`center ± 0.5*brush` (vertex shader `addStaticVertStr`: corners at
`uMousePos + uBrushSize*(aCorner-0.5)`, varying `fromCenter = 2*aCorner-1`,
which interpolates to `2*(p-center)/brush`); the fragment shader
`addStaticFragStr` discards where `dot(fromCenter,fromCenter) > 1.0` and
otherwise stores `0.5*normalize(fromCenter) + 0.5` in the RG channels. -/
def addStaticObstaclePixel (brush center : Vec2) (layer : Vec2 → Vec2)
    (p : Vec2) : Vec2 :=
  if |p.1 - center.1| ≤ 0.5 * brush.1 ∧ |p.2 - center.2| ≤ 0.5 * brush.2 then
    let fromCenter : Vec2 :=
      (2 * (p.1 - center.1) / brush.1, 2 * (p.2 - center.2) / brush.2)
    if 1 < dot fromCenter fromCenter then layer p
    else (0.5 * (glNormalize fromCenter).1 + 0.5,
          0.5 * (glNormalize fromCenter).2 + 0.5)
  else layer p

/-! ### Basic lemmas about the GLSL vector operations -/

theorem dot_self_nonneg (v : Vec2) : 0 ≤ dot v v := by
  unfold dot; nlinarith [sq_nonneg v.1, sq_nonneg v.2]

theorem glLength_nonneg (v : Vec2) : 0 ≤ glLength v := Real.sqrt_nonneg _

theorem glLength_sq (v : Vec2) : glLength v * glLength v = dot v v :=
  Real.mul_self_sqrt (dot_self_nonneg v)

theorem glLength_eq_zero_iff (v : Vec2) : glLength v = 0 ↔ v = (0, 0) := by
  unfold glLength
  rw [Real.sqrt_eq_zero (dot_self_nonneg v)]
  constructor
  · intro h0
    unfold dot at h0
    have h1 : v.1 = 0 := by nlinarith [sq_nonneg v.1, sq_nonneg v.2]
    have h2 : v.2 = 0 := by nlinarith [sq_nonneg v.1, sq_nonneg v.2]
    rw [Prod.ext_iff]
    exact ⟨h1, h2⟩
  · intro h; rw [h]; norm_num [dot]

theorem glLength_vscale (k : ℝ) (v : Vec2) :
    glLength (vscale k v) = |k| * glLength v := by
  unfold glLength vscale dot
  rw [show k * v.1 * (k * v.1) + k * v.2 * (k * v.2)
        = k ^ 2 * (v.1 * v.1 + v.2 * v.2) by ring,
    Real.sqrt_mul (sq_nonneg k), Real.sqrt_sq_eq_abs]

theorem abs_fst_le_glLength (v : Vec2) : |v.1| ≤ glLength v := by
  rw [show |v.1| = Real.sqrt (v.1 ^ 2) by rw [Real.sqrt_sq_eq_abs]]
  exact Real.sqrt_le_sqrt (by unfold dot; nlinarith [sq_nonneg v.2])

theorem abs_snd_le_glLength (v : Vec2) : |v.2| ≤ glLength v := by
  rw [show |v.2| = Real.sqrt (v.2 ^ 2) by rw [Real.sqrt_sq_eq_abs]]
  exact Real.sqrt_le_sqrt (by unfold dot; nlinarith [sq_nonneg v.1])

/-- The clamp idiom `v *= min(1, c/length(v))` never produces a vector longer
than `c` (for `c ≥ 0`), whatever `v` is. -/
theorem glLength_speedClamp_le (c : ℝ) (v : Vec2) (hc : 0 ≤ c) :
    glLength (speedClamp c v) ≤ c := by
  unfold speedClamp
  rw [glLength_vscale]
  rcases eq_or_lt_of_le (glLength_nonneg v) with h0 | h0
  · rw [← h0]; simpa using hc
  · have hk : 0 ≤ min 1 (c / glLength v) :=
      le_min (by norm_num) (div_nonneg hc (glLength_nonneg v))
    rw [abs_of_nonneg hk]
    calc min 1 (c / glLength v) * glLength v
        ≤ c / glLength v * glLength v := by
          apply mul_le_mul_of_nonneg_right (min_le_right _ _) (glLength_nonneg v)
      _ = c := div_mul_cancel₀ c (ne_of_gt h0)

/-- The clamp idiom is the identity on vectors already within the bound. -/
theorem speedClamp_eq_self (c : ℝ) (v : Vec2) (h : glLength v ≤ c) :
    speedClamp c v = v := by
  unfold speedClamp
  rcases eq_or_lt_of_le (glLength_nonneg v) with h0 | h0
  · have hv : v = (0, 0) := (glLength_eq_zero_iff v).mp h0.symm
    subst hv; simp [vscale]
  · have h1 : 1 ≤ c / glLength v := (one_le_div h0).mpr h
    rw [min_eq_left h1]; simp [vscale]

theorem random_nonneg (co : Vec2) : 0 ≤ random co := Int.fract_nonneg _

theorem random_lt_one (co : Vec2) : random co < 1 := Int.fract_lt_one _

/-- Decoded obstacle texel channels lie in `[-1, 1]` whenever the raw texel
channels lie in `[0, 1]`. -/
theorem decodeObstacle_bounds (t : Vec2) (h1 : 0 ≤ t.1) (h1' : t.1 ≤ 1)
    (h2 : 0 ≤ t.2) (h2' : t.2 ≤ 1) :
    |(decodeObstacle t).1| ≤ 1 ∧ |(decodeObstacle t).2| ≤ 1 := by
  unfold decodeObstacle
  constructor <;> rw [abs_le] <;> constructor <;> simp <;> linarith

/-- The single conditional wrap sends any `x` within `1.5` bandwidths of the
origin into `[-b/2, b/2]`. -/
theorem wrapX_bounds (b x : ℝ) (hx : |x| ≤ 1.5 * b) : |wrapX b x| ≤ 0.5 * b := by
  unfold wrapX
  rw [abs_le] at hx
  split_ifs with h1 h2 <;> rw [abs_le] <;> constructor <;> linarith

theorem dot_self_pos (v : Vec2) (h : v ≠ (0, 0)) : 0 < dot v v := by
  rcases eq_or_lt_of_le (dot_self_nonneg v) with h0 | h0
  · exfalso
    apply h
    have := (glLength_eq_zero_iff v).mp (by unfold glLength; rw [← h0]; simp)
    exact this
  · exact h0

/-- Normalizing a nonzero vector yields a unit vector. -/
theorem glLength_glNormalize (v : Vec2) (h : v ≠ (0, 0)) :
    glLength (glNormalize v) = 1 := by
  have hpos : 0 < glLength v := by
    unfold glLength
    exact Real.sqrt_pos.mpr (dot_self_pos v h)
  unfold glNormalize
  rw [glLength_vscale, abs_of_nonneg (by positivity), one_div,
    inv_mul_cancel₀ (ne_of_gt hpos)]

/-- Reflecting about the normalized obstacle normal flips the sign of the
velocity's component along the (unnormalized) normal. -/
theorem dot_glReflect_glNormalize (n v : Vec2) (h : 0 < dot n n) :
    dot (glReflect v (glNormalize n)) n = -(dot v n) := by
  have hs : glLength n * glLength n = dot n n := glLength_sq n
  have hspos : 0 < glLength n := by
    unfold glLength; exact Real.sqrt_pos.mpr h
  have hs0 : glLength n ≠ 0 := ne_of_gt hspos
  unfold glReflect glNormalize vsub vscale dot at *
  field_simp
  linear_combination (2 * (v.1 * n.1 + v.2 * n.2)) * hs

/-- The wrap is the identity inside `[-b/2, b/2]`. -/
theorem wrapX_id (b x : ℝ) (hx : |x| ≤ 0.5 * b) : wrapX b x = x := by
  unfold wrapX
  rw [abs_le] at hx
  split_ifs with h1 h2 <;> [linarith; linarith; rfl]

theorem dot_vscale_left (k : ℝ) (a b : Vec2) :
    dot (vscale k a) b = k * dot a b := by
  unfold vscale dot; ring

theorem maxSpeed_nonneg (W H : ℝ) (hW : 0 < W) (hH : 0 < H) :
    0 ≤ maxSpeed W H := by
  unfold maxSpeed
  have := le_min hW.le hH.le
  linarith

/-! ### Claim theorems -/

/-- C2: for every particle, every input state (any position, velocity,
acceleration and obstacle texture), and every `dt ∈ [0, 0.1]`, the velocity
written by the update shader satisfies `|velocity| ≤ MAX_SPEED`; the clamp
`nextVel *= min(1.0, MAX_SPEED/length(nextVel))` is the last velocity
operation, after acceleration, reinjection and bounce, so the bound holds
regardless of what those produced. -/
theorem step_speed_clamp (W H : ℝ) (tex : Vec2 → Vec2) (acc : Vec2) (dt : ℝ)
    (pos vel : Vec2) (hW : 0 < W) (hH : 0 < H) (hdt0 : 0 ≤ dt)
    (hdt1 : dt ≤ 0.1) :
    glLength (updateVert W H tex acc dt pos vel).2 ≤ maxSpeed W H := by
  have hm : 0 ≤ maxSpeed W H := maxSpeed_nonneg W H hW hH
  show glLength (updateNextVel W H tex acc dt pos vel) ≤ maxSpeed W H
  unfold updateNextVel
  exact glLength_speedClamp_le _ _ hm

/-- Witness for C2 at a concrete state whose raw speed (500) exceeds
`MAX_SPEED = 256`. -/
theorem step_speed_clamp_witness :
    glLength (updateVert 512 512 (fun _ => (0.5, 0.5)) (0, -10000) (1 / 60)
      (0, 0) (300, 400)).2 ≤ maxSpeed 512 512 :=
  step_speed_clamp 512 512 (fun _ => (0.5, 0.5)) (0, -10000) (1 / 60)
    (0, 0) (300, 400) (by norm_num) (by norm_num) (by norm_num) (by norm_num)

/-- C5: for every obstacle normal `n` with `dot(n,n) > 0.1` and every incoming
velocity `v` with `dot(v,n) < 0`, the reflected-and-rescaled velocity produced
by the bounce branch satisfies `dot(v',n) ≥ 0` and `|v'| ≤ 0.1 * MAX_SPEED`,
before the final global clamp. -/
theorem bounce_non_penetration (W H : ℝ) (n v : Vec2) (hW : 0 < W)
    (hH : 0 < H) (hn : 0.1 < dot n n) (hv : dot v n < 0) :
    0 ≤ dot (bounce (maxSpeed W H) n v) n ∧
    glLength (bounce (maxSpeed W H) n v) ≤ 0.1 * maxSpeed W H := by
  have hm : 0 ≤ maxSpeed W H := maxSpeed_nonneg W H hW hH
  have hm1 : (0:ℝ) ≤ 0.1 * maxSpeed W H := by linarith
  constructor
  · unfold bounce speedClamp
    rw [dot_vscale_left,
      dot_glReflect_glNormalize n v (by linarith)]
    exact mul_nonneg (le_min (by norm_num) (div_nonneg hm1 (glLength_nonneg _)))
      (by linarith)
  · exact glLength_speedClamp_le _ _ hm1

/-- Witness for C5: normal `(1,0)`, incoming velocity `(-1,0)`. -/
theorem bounce_non_penetration_witness :
    0 ≤ dot (bounce (maxSpeed 512 512) (1, 0) (-1, 0)) (1, 0) ∧
    glLength (bounce (maxSpeed 512 512) (1, 0) (-1, 0)) ≤
      0.1 * maxSpeed 512 512 :=
  bounce_non_penetration 512 512 (1, 0) (-1, 0) (by norm_num) (by norm_num)
    (by norm_num [dot]) (by norm_num [dot])

/-- C7: for every kernel size `K ≥ 1`, the generated blur-kernel weights
(`exp(-4*x_i^2)` at `x_i = 2*i/K - 1`, renormalized by their total) sum to
`1.0` within `1e-5` (in exact arithmetic the sum is exactly `1`). -/
theorem kernel_weights_normalized (K : ℕ) (hK : 1 ≤ K) :
    |(∑ i ∈ Finset.range K, kernelWeight K i) - 1| ≤ 1e-5 := by
  have hpos : 0 < kernelTotal K := by
    unfold kernelTotal
    exact Finset.sum_pos (fun i _ => Real.exp_pos _)
      (Finset.nonempty_range_iff.mpr (by omega))
  have hsum : ∑ i ∈ Finset.range K, kernelWeight K i = 1 := by
    unfold kernelWeight
    rw [← Finset.sum_div]
    exact div_self (ne_of_gt hpos)
  rw [hsum]
  norm_num

/-- Witness for C7 at the default kernel size `K = 9`. -/
theorem kernel_weights_normalized_witness :
    |(∑ i ∈ Finset.range 9, kernelWeight 9 i) - 1| ≤ 1e-5 :=
  kernel_weights_normalized 9 (by norm_num)

/-- C8: in the `Fluidify` display pass, a pixel whose blurred alpha is
strictly below the threshold produces the all-zero (fully transparent) output,
and a pixel at or above the threshold produces exactly the shaded value (base
color or normal visualization, plus the optional specular highlight). -/
theorem display_threshold_discard (threshold : ℝ) (showNormals specular : Bool)
    (texel : Vec4) (dLdx dLdy : ℝ) :
    displayFrag threshold showNormals specular texel dLdx dLdy =
      if alpha texel < threshold then ((0, 0, 0, 0) : Vec4)
      else displayShade showNormals specular texel dLdx dLdy := by
  unfold displayFrag displayShade glStep
  split_ifs with h <;> simp [vscale4, vadd4]

/-- C9: `addStaticObstacle` overwrites exactly the pixels of the brush disc:
where `dot(fromCenter, fromCenter) ≤ 1` the stored RG value becomes the
encoded normalized outward radial direction from the disc center (a unit
vector whenever the pixel is not the exact center), and every pixel with
`dot(fromCenter, fromCenter) > 1` keeps its previous static-layer value. -/
theorem addStaticObstacle_disc (brush center : Vec2) (layer : Vec2 → Vec2)
    (p : Vec2) (fc : Vec2) (hb1 : 0 < brush.1) (hb2 : 0 < brush.2)
    (hfc : fc = (2 * (p.1 - center.1) / brush.1,
                 2 * (p.2 - center.2) / brush.2)) :
    (dot fc fc ≤ 1 →
      addStaticObstaclePixel brush center layer p =
        (0.5 * (glNormalize fc).1 + 0.5, 0.5 * (glNormalize fc).2 + 0.5) ∧
      (fc ≠ (0, 0) → glLength (glNormalize fc) = 1)) ∧
    (1 < dot fc fc → addStaticObstaclePixel brush center layer p = layer p) := by
  subst hfc
  constructor
  · intro hin
    have hq1 : (2 * (p.1 - center.1) / brush.1) ^ 2 ≤ 1 := by
      unfold dot at hin
      nlinarith [sq_nonneg (2 * (p.2 - center.2) / brush.2)]
    have hq2 : (2 * (p.2 - center.2) / brush.2) ^ 2 ≤ 1 := by
      unfold dot at hin
      nlinarith [sq_nonneg (2 * (p.1 - center.1) / brush.1)]
    have hd1 : 4 * (p.1 - center.1) ^ 2 ≤ brush.1 ^ 2 := by
      have hb : (0:ℝ) < brush.1 ^ 2 := by positivity
      have := mul_le_mul_of_nonneg_right hq1 hb.le
      calc 4 * (p.1 - center.1) ^ 2
          = (2 * (p.1 - center.1) / brush.1) ^ 2 * brush.1 ^ 2 := by
            field_simp
            ring
        _ ≤ 1 * brush.1 ^ 2 := this
        _ = brush.1 ^ 2 := one_mul _
    have hd2 : 4 * (p.2 - center.2) ^ 2 ≤ brush.2 ^ 2 := by
      have hb : (0:ℝ) < brush.2 ^ 2 := by positivity
      have := mul_le_mul_of_nonneg_right hq2 hb.le
      calc 4 * (p.2 - center.2) ^ 2
          = (2 * (p.2 - center.2) / brush.2) ^ 2 * brush.2 ^ 2 := by
            field_simp
            ring
        _ ≤ 1 * brush.2 ^ 2 := this
        _ = brush.2 ^ 2 := one_mul _
    have hc1 : |p.1 - center.1| ≤ 0.5 * brush.1 := by
      rw [abs_le]
      constructor
      · nlinarith [sq_nonneg (2 * (p.1 - center.1) + brush.1)]
      · nlinarith [sq_nonneg (2 * (p.1 - center.1) - brush.1)]
    have hc2 : |p.2 - center.2| ≤ 0.5 * brush.2 := by
      rw [abs_le]
      constructor
      · nlinarith [sq_nonneg (2 * (p.2 - center.2) + brush.2)]
      · nlinarith [sq_nonneg (2 * (p.2 - center.2) - brush.2)]
    constructor
    · unfold addStaticObstaclePixel
      rw [if_pos ⟨hc1, hc2⟩, if_neg (not_lt.mpr hin)]
    · exact fun hne => glLength_glNormalize _ hne
  · intro hout
    unfold addStaticObstaclePixel
    by_cases hcov : |p.1 - center.1| ≤ 0.5 * brush.1 ∧
        |p.2 - center.2| ≤ 0.5 * brush.2
    · rw [if_pos hcov, if_pos hout]
    · rw [if_neg hcov]

/-- Witness for C9: unit brush at the origin, probe pixel `(1/4, 0)` inside
the disc (`fromCenter = (1/2, 0)`). -/
theorem addStaticObstacle_disc_witness :
    addStaticObstaclePixel (1, 1) (0, 0) (fun _ => (0.5, 0.5)) (1 / 4, 0) =
      (0.5 * (glNormalize ((1 / 2, 0) : Vec2)).1 + 0.5,
       0.5 * (glNormalize ((1 / 2, 0) : Vec2)).2 + 0.5) ∧
    glLength (glNormalize ((1 / 2, 0) : Vec2)) = 1 := by
  have h := addStaticObstacle_disc (1, 1) (0, 0) (fun _ => (0.5, 0.5))
    (1 / 4, 0) (1 / 2, 0) (by norm_num) (by norm_num)
    (by norm_num [Prod.ext_iff])
  have h1 := h.1 (by norm_num [dot])
  exact ⟨h1.1, h1.2 (by norm_num [Prod.ext_iff])⟩

/-- C1 counterexample: with the byte-initialized obstacle texture (every
texel `(127/255, 127/255)`, the repository's "no obstacle" state), at
`pos = vel = (0,0)`, `acc = (0,0)`, `dt = 0.1`, `W = H = 512`: the obstacle
test fails at the tentative next position (decoded squared length
`2/65025 ≤ 0.1`), yet the written position is not `pos + dt*nextVel` — the
nudge `nextPos += dt*normal` is applied unconditionally. -/
theorem step_nudge_despite_failed_test :
    dot (decodeObstacle ((127:ℝ)/255, (127:ℝ)/255))
        (decodeObstacle ((127:ℝ)/255, (127:ℝ)/255)) ≤ 0.1 ∧
    (updateVert 512 512 (fun _ => ((127:ℝ)/255, (127:ℝ)/255)) (0, 0) (1/10)
        (0, 0) (0, 0)).1 ≠
      vadd (0, 0) (vscale (1/10)
        (updateVert 512 512 (fun _ => ((127:ℝ)/255, (127:ℝ)/255)) (0, 0)
          (1/10) (0, 0) (0, 0)).2) := by
  constructor
  · norm_num [decodeObstacle, dot]
  · norm_num [updateVert, updateNextVel, updateNextPos, decodeObstacle, dot,
      vadd, vscale, speedClamp, glLength, wrapX, posBandwidth, maxSpeed,
      bounce, Real.sqrt_zero, Prod.ext_iff]

/-- C1 (amended): the nudge `nextPos += dt*normal` is unconditional, so the
claim holds only for an obstacle texture that decodes exactly to the zero
vector (texel `(0.5, 0.5)`), which the byte-initialized texture is not; with
such a texture, zero acceleration, speed at most `MAX_SPEED`, no reinjection
and no wrap, one step maps `(pos, vel)` to `(pos + dt*vel, vel)`. -/
theorem step_identity_on_zero_field (W H : ℝ) (tex : Vec2 → Vec2) (dt : ℝ)
    (pos vel : Vec2) (htex : ∀ q, tex q = (0.5, 0.5)) (hdt0 : 0 ≤ dt)
    (hdt1 : dt ≤ 0.1) (hy : -0.5 * H ≤ pos.2)
    (hvel : glLength vel ≤ maxSpeed W H)
    (hx : |pos.1 + dt * vel.1| ≤ 0.5 * posBandwidth W H) :
    updateVert W H tex (0, 0) dt pos vel = (vadd pos (vscale dt vel), vel) := by
  have hdec : decodeObstacle ((0.5:ℝ), (0.5:ℝ)) = (0, 0) := by
    norm_num [decodeObstacle]
  have h0 : ∀ w : Vec2, vadd w (vscale dt ((0:ℝ), (0:ℝ))) = w := by
    intro w; simp [vadd, vscale]
  have hvel' : updateNextVel W H tex (0, 0) dt pos vel = vel := by
    unfold updateNextVel
    simp only [htex, hdec, if_neg (not_lt.mpr hy), h0]
    rw [if_neg (by rintro ⟨h, -⟩; norm_num [dot] at h)]
    exact speedClamp_eq_self _ _ hvel
  have hpos' : updateNextPos W H tex (0, 0) dt pos vel =
      vadd pos (vscale dt vel) := by
    unfold updateNextPos
    simp only [hvel', htex, hdec, if_neg (not_lt.mpr hy), h0]
    rw [show (vadd pos (vscale dt vel)).1 = pos.1 + dt * vel.1 from rfl,
      wrapX_id _ _ hx]
    simp [vadd, vscale]
  unfold updateVert
  rw [hvel', hpos']

/-- Witness for the amended C1: `W = H = 512`, `vel = (3,4)` (speed `5`),
`dt = 1/100`, exactly-zero-decoding texture. -/
theorem step_identity_on_zero_field_witness :
    updateVert 512 512 (fun _ => (0.5, 0.5)) (0, 0) (1 / 100) (0, 0) (3, 4) =
      (vadd (0, 0) (vscale (1 / 100) (3, 4)), (3, 4)) := by
  apply step_identity_on_zero_field 512 512 (fun _ => (0.5, 0.5)) (1 / 100)
    (0, 0) (3, 4) (fun _ => rfl) (by norm_num) (by norm_num) (by norm_num)
  · show glLength (3, 4) ≤ maxSpeed 512 512
    have h : glLength ((3:ℝ), (4:ℝ)) = 5 := by
      unfold glLength dot
      rw [show (3:ℝ) * 3 + 4 * 4 = 5 ^ 2 by norm_num,
        Real.sqrt_sq (by norm_num : (0:ℝ) ≤ 5)]
    rw [h]
    norm_num [maxSpeed]
  · norm_num [posBandwidth, abs_le]

/-- C4 counterexample: a particle starting two bandwidths to the left
(`pos.x = -1228.8`, `W = H = 512`, so the bandwidth is `614.4`), with zero
velocity, acceleration and `dt = 0`, ends the step at `x = -614.4`, outside
`[-307.2, 307.2]`: the single conditional wrap does not close the bandwidth
for arbitrary incoming positions. -/
theorem wrap_escapes_bandwidth :
    (updateVert 512 512 (fun _ => (0.5, 0.5)) (0, 0) 0
        (-(6144 / 5), 0) (0, 0)).1.1 < -(0.5 * posBandwidth 512 512) := by
  norm_num [updateVert, updateNextVel, updateNextPos, decodeObstacle, dot,
    vadd, vscale, speedClamp, glLength, wrapX, posBandwidth, maxSpeed, bounce,
    Real.sqrt_zero]

/-- Arithmetic core of the no-reinjection branch of C4: one integration plus
nudge step moves `x` by at most `dt*(MAX_SPEED + 1) ≤ bandwidth`, keeping it
within `1.5` bandwidths. -/
theorem drift_within_three_half_bandwidths (W H dt x v d : ℝ) (hW : 1 ≤ W)
    (hH : 1 ≤ H) (hdt0 : 0 ≤ dt) (hdt1 : dt ≤ 0.1)
    (hx : |x| ≤ 0.5 * posBandwidth W H) (hv : |v| ≤ maxSpeed W H)
    (hd : |d| ≤ 1) : |x + dt * v + dt * d| ≤ 1.5 * posBandwidth W H := by
  have hminmax : min W H ≤ max W H := min_le_max
  have hmax1 : (1:ℝ) ≤ max W H := le_trans hW (le_max_left W H)
  have h1 : |x + dt * v + dt * d| ≤ |x| + |dt * v| + |dt * d| :=
    abs_add_three _ _ _
  have h2 : |dt * v| ≤ 0.1 * maxSpeed W H := by
    rw [abs_mul, abs_of_nonneg hdt0]
    exact mul_le_mul hdt1 hv (abs_nonneg _) (by norm_num)
  have h3 : |dt * d| ≤ 0.1 := by
    rw [abs_mul, abs_of_nonneg hdt0]
    calc dt * |d| ≤ 0.1 * 1 := mul_le_mul hdt1 hd (abs_nonneg _) (by norm_num)
      _ = 0.1 := by norm_num
  unfold maxSpeed posBandwidth at *
  linarith

/-- C4 (amended): the wrap correction keeps the final x inside
`[-0.5*bandwidth, 0.5*bandwidth]` provided the particle's incoming x already
satisfies that invariant (which the step therefore maintains); for arbitrary
unbounded incoming x a single conditional wrap is not enough. -/
theorem step_x_bandwidth_invariant (W H : ℝ) (tex : Vec2 → Vec2) (acc : Vec2)
    (dt : ℝ) (pos vel : Vec2) (hW : 1 ≤ W) (hH : 1 ≤ H) (hdt0 : 0 ≤ dt)
    (hdt1 : dt ≤ 0.1)
    (htex : ∀ q, 0 ≤ (tex q).1 ∧ (tex q).1 ≤ 1 ∧ 0 ≤ (tex q).2 ∧ (tex q).2 ≤ 1)
    (hx : |pos.1| ≤ 0.5 * posBandwidth W H) :
    |(updateVert W H tex acc dt pos vel).1.1| ≤ 0.5 * posBandwidth W H := by
  have hW0 : (0:ℝ) < W := lt_of_lt_of_le one_pos hW
  have hH0 : (0:ℝ) < H := lt_of_lt_of_le one_pos hH
  have hM : 0 ≤ maxSpeed W H := maxSpeed_nonneg W H hW0 hH0
  have hB : (0:ℝ) ≤ posBandwidth W H := by
    unfold posBandwidth
    have : (0:ℝ) ≤ max W H := le_trans hW0.le (le_max_left W H)
    linarith
  have hd1 : ∀ q : Vec2, |(decodeObstacle (tex q)).1| ≤ 1 := fun q =>
    (decodeObstacle_bounds _ (htex q).1 (htex q).2.1 (htex q).2.2.1
      (htex q).2.2.2).1
  show |(updateNextPos W H tex acc dt pos vel).1| ≤ 0.5 * posBandwidth W H
  simp only [updateNextPos]
  set nv := updateNextVel W H tex acc dt pos vel with hnv
  have hnvlen : glLength nv ≤ maxSpeed W H := by
    rw [hnv]; unfold updateNextVel; exact glLength_speedClamp_le _ _ hM
  apply wrapX_bounds
  by_cases hc : pos.2 < -0.5 * H
  · rw [if_pos hc]
    show |(random (vadd pos vel) - 0.5) * W| ≤ 1.5 * posBandwidth W H
    have hr0 := random_nonneg (vadd pos vel)
    have hr1 := random_lt_one (vadd pos vel)
    have habs : |random (vadd pos vel) - 0.5| ≤ 0.5 := by
      rw [abs_le]; constructor <;> linarith
    have hWB : W ≤ posBandwidth W H := by
      unfold posBandwidth
      have h1 : W ≤ max W H := le_max_left W H
      have h2 : (0:ℝ) ≤ max W H := le_trans hW0.le h1
      linarith
    rw [abs_mul, abs_of_nonneg hW0.le]
    calc |random (vadd pos vel) - 0.5| * W ≤ 0.5 * W :=
        mul_le_mul_of_nonneg_right habs hW0.le
      _ ≤ 1.5 * posBandwidth W H := by linarith
  · rw [if_neg hc]
    show |pos.1 + dt * nv.1 + dt *
        (decodeObstacle (tex ((vadd pos (vscale dt nv)).1 / W + 0.5,
          (vadd pos (vscale dt nv)).2 / H + 0.5))).1| ≤
      1.5 * posBandwidth W H
    exact drift_within_three_half_bandwidths W H dt pos.1 nv.1 _ hW hH hdt0
      hdt1 hx (le_trans (abs_fst_le_glLength nv) hnvlen) (hd1 _)

/-- Witness for the amended C4 at a concrete in-bandwidth state. -/
theorem step_x_bandwidth_invariant_witness :
    |(updateVert 512 512 (fun _ => (0.5, 0.5)) (0, -10000) (1 / 60) (100, 50)
        (30, -40)).1.1| ≤ 0.5 * posBandwidth 512 512 :=
  step_x_bandwidth_invariant 512 512 (fun _ => (0.5, 0.5)) (0, -10000)
    (1 / 60) (100, 50) (30, -40) (by norm_num) (by norm_num) (by norm_num)
    (by norm_num) (fun q => by norm_num)
    (by norm_num [posBandwidth, abs_le])

/-- C3 counterexample: a particle far below the domain
(`pos = (0, -5120)`, `W = H = 512`, zero velocity and acceleration, `dt = 0`,
no obstacles) is reinjected, but its new y
(`pos.y + H + 0.5*random(pos)*(bandwidth - H) ≤ -4556.8`) stays far below the
top edge `0.5*H = 256`: reinjection lifts by about one domain height, it does
not clamp to above the top. -/
theorem reinjection_not_above_top :
    (updateVert 512 512 (fun _ => (0.5, 0.5)) (0, 0) 0 (0, -5120)
        (0, 0)).1.2 ≤ 0.5 * 512 := by
  have hr0 := random_nonneg ((0:ℝ), (-5120:ℝ))
  have hr1 := random_lt_one ((0:ℝ), (-5120:ℝ))
  norm_num [updateVert, updateNextVel, updateNextPos, decodeObstacle, dot,
    vadd, vscale, speedClamp, glLength, wrapX, posBandwidth, maxSpeed, bounce,
    Real.sqrt_zero]
  nlinarith [hr0, hr1]

/-- C3 (amended): a particle with `pos.y < -0.5*H` before the step has, after
the step, `|x| ≤ 0.5*W` (as claimed), but its new y is only guaranteed to be
`≥ pos.y + H - dt*(MAX_SPEED + 1)` — lifted by about one domain height above
wherever it was, which exceeds `0.5*H` only when the particle was not too far
below the bottom edge. -/
theorem reinjection_bounds (W H : ℝ) (tex : Vec2 → Vec2) (acc : Vec2)
    (dt : ℝ) (pos vel : Vec2) (hW : 1 ≤ W) (hH : 1 ≤ H) (hdt0 : 0 ≤ dt)
    (hdt1 : dt ≤ 0.1)
    (htex : ∀ q, 0 ≤ (tex q).1 ∧ (tex q).1 ≤ 1 ∧ 0 ≤ (tex q).2 ∧ (tex q).2 ≤ 1)
    (hy : pos.2 < -0.5 * H) :
    |(updateVert W H tex acc dt pos vel).1.1| ≤ 0.5 * W ∧
    pos.2 + H - dt * (maxSpeed W H + 1) ≤
      (updateVert W H tex acc dt pos vel).1.2 := by
  have hW0 : (0:ℝ) < W := lt_of_lt_of_le one_pos hW
  have hH0 : (0:ℝ) < H := lt_of_lt_of_le one_pos hH
  have hM : 0 ≤ maxSpeed W H := maxSpeed_nonneg W H hW0 hH0
  have hWB : W ≤ posBandwidth W H := by
    unfold posBandwidth
    have h1 : W ≤ max W H := le_max_left W H
    have h2 : (0:ℝ) ≤ max W H := le_trans hW0.le h1
    linarith
  have hHB : H ≤ posBandwidth W H := by
    unfold posBandwidth
    have h1 : H ≤ max W H := le_max_right W H
    have h2 : (0:ℝ) ≤ max W H := le_trans hH0.le h1
    linarith
  have hd2 : ∀ q : Vec2, |(decodeObstacle (tex q)).2| ≤ 1 := fun q =>
    (decodeObstacle_bounds _ (htex q).1 (htex q).2.1 (htex q).2.2.1
      (htex q).2.2.2).2
  have hgoal : (updateVert W H tex acc dt pos vel).1 =
      updateNextPos W H tex acc dt pos vel := rfl
  rw [hgoal]
  simp only [updateNextPos]
  set nv := updateNextVel W H tex acc dt pos vel with hnv
  have hnvlen : glLength nv ≤ maxSpeed W H := by
    rw [hnv]; unfold updateNextVel; exact glLength_speedClamp_le _ _ hM
  rw [if_pos hy]
  constructor
  · show |wrapX (posBandwidth W H) ((random (vadd pos vel) - 0.5) * W)| ≤
      0.5 * W
    have hr0 := random_nonneg (vadd pos vel)
    have hr1 := random_lt_one (vadd pos vel)
    have habs : |(random (vadd pos vel) - 0.5) * W| ≤ 0.5 * W := by
      rw [abs_mul, abs_of_nonneg hW0.le]
      have h : |random (vadd pos vel) - 0.5| ≤ 0.5 := by
        rw [abs_le]; constructor <;> linarith
      nlinarith
    rw [wrapX_id _ _ (le_trans habs (by linarith))]
    exact habs
  · show pos.2 + H - dt * (maxSpeed W H + 1) ≤
      pos.2 + dt * nv.2 + dt *
        (decodeObstacle (tex ((vadd pos (vscale dt nv)).1 / W + 0.5,
          (vadd pos (vscale dt nv)).2 / H + 0.5))).2 + H +
      0.5 * random pos * (posBandwidth W H - H)
    set d2 := (decodeObstacle (tex ((vadd pos (vscale dt nv)).1 / W + 0.5,
      (vadd pos (vscale dt nv)).2 / H + 0.5))).2 with hd2def
    have hnv2 : -(maxSpeed W H) ≤ nv.2 :=
      (abs_le.mp (le_trans (abs_snd_le_glLength nv) hnvlen)).1
    have hD2 : -1 ≤ d2 := (abs_le.mp (hd2 _)).1
    have hr0 := random_nonneg pos
    have e1 : dt * -(maxSpeed W H) ≤ dt * nv.2 :=
      mul_le_mul_of_nonneg_left hnv2 hdt0
    have e2 : dt * (-1) ≤ dt * d2 := mul_le_mul_of_nonneg_left hD2 hdt0
    have e3 : 0 ≤ 0.5 * random pos * (posBandwidth W H - H) :=
      mul_nonneg (mul_nonneg (by norm_num) hr0) (by linarith)
    linarith

/-- Witness for the amended C3: a particle just below the bottom edge. -/
theorem reinjection_bounds_witness :
    |(updateVert 512 512 (fun _ => (0.5, 0.5)) (0, -10000) (1 / 60) (0, -300)
        (10, -20)).1.1| ≤ 0.5 * 512 ∧
    -300 + 512 - 1 / 60 * (maxSpeed 512 512 + 1) ≤
      (updateVert 512 512 (fun _ => (0.5, 0.5)) (0, -10000) (1 / 60) (0, -300)
        (10, -20)).1.2 :=
  reinjection_bounds 512 512 (fun _ => (0.5, 0.5)) (0, -10000) (1 / 60)
    (0, -300) (10, -20) (by norm_num) (by norm_num) (by norm_num)
    (by norm_num) (fun q => by norm_num) (by norm_num)

/-- C10: `ObstacleMap.initTexture` fills the RG8 texture with byte pairs
`(127, 127)`, i.e. texel value `(127/255, 127/255)`.  This decodes to
`(-1/255, -1/255)`: squared length `2/65025 ≈ 3.1e-5 ≤ 0.1`, so every pixel
fails the obstacle test — yet the decoded vector is not zero, and since the
nudge `nextPos += uDt * obstacleNormal` is unconditional, every particle (here:
any non-reinjected one) gets the constant offset `dt * (-1/255, -1/255)` added
to its integrated position each step, even in obstacle-free space. -/
theorem init_texture_constant_nudge (W H : ℝ) (acc : Vec2) (dt : ℝ)
    (pos vel : Vec2) (hy : -0.5 * H ≤ pos.2) :
    decodeObstacle ((127:ℝ)/255, (127:ℝ)/255) = (-(1/255), -(1/255)) ∧
    dot (decodeObstacle ((127:ℝ)/255, (127:ℝ)/255))
        (decodeObstacle ((127:ℝ)/255, (127:ℝ)/255)) ≤ 0.1 ∧
    decodeObstacle ((127:ℝ)/255, (127:ℝ)/255) ≠ (0, 0) ∧
    (updateVert W H (fun _ => ((127:ℝ)/255, (127:ℝ)/255)) acc dt pos vel).1 =
      (wrapX (posBandwidth W H)
        (pos.1 + dt * (updateVert W H (fun _ => ((127:ℝ)/255, (127:ℝ)/255))
            acc dt pos vel).2.1 +
          dt * (decodeObstacle ((127:ℝ)/255, (127:ℝ)/255)).1),
       pos.2 + dt * (updateVert W H (fun _ => ((127:ℝ)/255, (127:ℝ)/255))
            acc dt pos vel).2.2 +
          dt * (decodeObstacle ((127:ℝ)/255, (127:ℝ)/255)).2) := by
  refine ⟨by norm_num [decodeObstacle, Prod.ext_iff],
    by norm_num [decodeObstacle, dot],
    by norm_num [decodeObstacle, Prod.ext_iff], ?_⟩
  show updateNextPos W H (fun _ => ((127:ℝ)/255, (127:ℝ)/255)) acc dt pos vel
    = _
  simp only [updateNextPos, if_neg (not_lt.mpr hy)]
  rfl

/-- Witness for C10 at `W = H = 512`, `dt = 0.1`, `pos = vel = (0,0)`. -/
theorem init_texture_constant_nudge_witness :
    decodeObstacle ((127:ℝ)/255, (127:ℝ)/255) = (-(1/255), -(1/255)) ∧
    dot (decodeObstacle ((127:ℝ)/255, (127:ℝ)/255))
        (decodeObstacle ((127:ℝ)/255, (127:ℝ)/255)) ≤ 0.1 ∧
    decodeObstacle ((127:ℝ)/255, (127:ℝ)/255) ≠ (0, 0) ∧
    (updateVert 512 512 (fun _ => ((127:ℝ)/255, (127:ℝ)/255)) (0, 0) (1 / 10)
        (0, 0) (0, 0)).1 =
      (wrapX (posBandwidth 512 512)
        (((0, 0) : Vec2).1 + 1 / 10 *
            (updateVert 512 512 (fun _ => ((127:ℝ)/255, (127:ℝ)/255)) (0, 0)
              (1 / 10) (0, 0) (0, 0)).2.1 +
          1 / 10 * (decodeObstacle ((127:ℝ)/255, (127:ℝ)/255)).1),
       ((0, 0) : Vec2).2 + 1 / 10 *
            (updateVert 512 512 (fun _ => ((127:ℝ)/255, (127:ℝ)/255)) (0, 0)
              (1 / 10) (0, 0) (0, 0)).2.2 +
          1 / 10 * (decodeObstacle ((127:ℝ)/255, (127:ℝ)/255)).2) :=
  init_texture_constant_nudge 512 512 (0, 0) (1 / 10) (0, 0) (0, 0)
    (by norm_num)

/-! ### `Particles` buffer state (`Particles.reset` / constructor) -/

/-- The host-visible state of the `Particles` class: particle count, the two
generations of position and velocity buffers, and the generation pointer
`_currIndex`. -/
structure ParticlesState where
  nbParts : ℕ
  posVBO : Fin 2 → ℕ → Vec2
  velVBO : Fin 2 → ℕ → Vec2
  currIndex : ℕ

/-- `Particles.reset(gl, nb)`: draws `Math.random()` four times per particle
(position x, position y, velocity x, velocity y, modelled as the stream
`rng`), then uploads the same freshly generated arrays into both VBO
generations.  It assigns `_nbParts` but never touches `_currIndex` — only the
constructor sets `_currIndex = 0`, after its own call to `reset`. -/
def particlesReset (W H : ℝ) (rng : ℕ → ℝ) (nb : ℕ) (s : ParticlesState) :
    ParticlesState :=
  let pos : ℕ → Vec2 := fun i =>
    ((rng (4 * i) - 0.5) * W, (rng (4 * i + 1) - 0.5) * H)
  let vel : ℕ → Vec2 := fun i =>
    (2 * (rng (4 * i + 2) - 0.5) * maxSpeed W H,
     2 * (rng (4 * i + 3) - 0.5) * maxSpeed W H)
  { nbParts := nb
    posVBO := fun _ => pos
    velVBO := fun _ => vel
    currIndex := s.currIndex }

/-- C6 counterexample: calling `reset` on a state whose generation pointer is
`1` leaves the pointer at `1` — `reset` does not restore the pointer to its
initial value `0`. -/
theorem reset_keeps_generation_pointer :
    (particlesReset 512 512 (fun _ => 0.5) 256
      { nbParts := 256
        posVBO := fun _ _ => (0, 0)
        velVBO := fun _ _ => (0, 0)
        currIndex := 1 }).currIndex ≠ 0 := by
  norm_num [particlesReset]

/-- C6 (amended): after `reset(count)`, the particle count is `count`, both
generations hold the same newly randomized data — positions within the
visible domain and velocities within ±MAX_SPEED per axis, given
`Math.random() ∈ [0,1)` — and the generation pointer is left unchanged (it is
the constructor, not `reset`, that initializes it to `0`). -/
theorem reset_randomizes_both_generations (W H : ℝ) (rng : ℕ → ℝ) (nb : ℕ)
    (s : ParticlesState) (hW : 0 < W) (hH : 0 < H)
    (hrng : ∀ k, 0 ≤ rng k ∧ rng k < 1) :
    (particlesReset W H rng nb s).nbParts = nb ∧
    (particlesReset W H rng nb s).currIndex = s.currIndex ∧
    (particlesReset W H rng nb s).posVBO 0 =
      (particlesReset W H rng nb s).posVBO 1 ∧
    (particlesReset W H rng nb s).velVBO 0 =
      (particlesReset W H rng nb s).velVBO 1 ∧
    (∀ g i, |((particlesReset W H rng nb s).posVBO g i).1| ≤ 0.5 * W ∧
      |((particlesReset W H rng nb s).posVBO g i).2| ≤ 0.5 * H) ∧
    (∀ g i, |((particlesReset W H rng nb s).velVBO g i).1| ≤ maxSpeed W H ∧
      |((particlesReset W H rng nb s).velVBO g i).2| ≤ maxSpeed W H) := by
  have hM : 0 ≤ maxSpeed W H := maxSpeed_nonneg W H hW hH
  have habs : ∀ k, |rng k - 0.5| ≤ 0.5 := fun k => by
    have h := hrng k
    rw [abs_le]
    constructor <;> linarith [h.1, h.2]
  have hpos : ∀ (c : ℝ) (k : ℕ), 0 < c → |(rng k - 0.5) * c| ≤ 0.5 * c := by
    intro c k hc
    rw [abs_mul, abs_of_nonneg hc.le]
    exact mul_le_mul_of_nonneg_right (habs k) hc.le
  have hvel : ∀ k : ℕ, |2 * (rng k - 0.5) * maxSpeed W H| ≤ maxSpeed W H := by
    intro k
    rw [abs_mul, abs_of_nonneg hM]
    have h2 : |2 * (rng k - 0.5)| ≤ 1 := by
      have h := hrng k
      rw [abs_le]
      constructor <;> linarith [h.1, h.2]
    calc |2 * (rng k - 0.5)| * maxSpeed W H ≤ 1 * maxSpeed W H :=
        mul_le_mul_of_nonneg_right h2 hM
      _ = maxSpeed W H := one_mul _
  refine ⟨rfl, rfl, rfl, rfl, fun g i => ⟨?_, ?_⟩, fun g i => ⟨?_, ?_⟩⟩
  · exact hpos W (4 * i) hW
  · exact hpos H (4 * i + 1) hH
  · exact hvel (4 * i + 2)
  · exact hvel (4 * i + 3)

/-- Witness for the amended C6 with a constant half-stream. -/
theorem reset_randomizes_both_generations_witness :
    (particlesReset 512 512 (fun _ => 0.5) 256
      { nbParts := 4
        posVBO := fun _ _ => (0, 0)
        velVBO := fun _ _ => (0, 0)
        currIndex := 0 }).nbParts = 256 ∧
    (particlesReset 512 512 (fun _ => 0.5) 256
      { nbParts := 4
        posVBO := fun _ _ => (0, 0)
        velVBO := fun _ _ => (0, 0)
        currIndex := 0 }).currIndex =
      ({ nbParts := 4
         posVBO := fun _ _ => (0, 0)
         velVBO := fun _ _ => (0, 0)
         currIndex := 0 } : ParticlesState).currIndex ∧
    (particlesReset 512 512 (fun _ => 0.5) 256
      { nbParts := 4
        posVBO := fun _ _ => (0, 0)
        velVBO := fun _ _ => (0, 0)
        currIndex := 0 }).posVBO 0 =
      (particlesReset 512 512 (fun _ => 0.5) 256
        { nbParts := 4
          posVBO := fun _ _ => (0, 0)
          velVBO := fun _ _ => (0, 0)
          currIndex := 0 }).posVBO 1 ∧
    (particlesReset 512 512 (fun _ => 0.5) 256
      { nbParts := 4
        posVBO := fun _ _ => (0, 0)
        velVBO := fun _ _ => (0, 0)
        currIndex := 0 }).velVBO 0 =
      (particlesReset 512 512 (fun _ => 0.5) 256
        { nbParts := 4
          posVBO := fun _ _ => (0, 0)
          velVBO := fun _ _ => (0, 0)
          currIndex := 0 }).velVBO 1 ∧
    (∀ g i, |((particlesReset 512 512 (fun _ => 0.5) 256
      { nbParts := 4
        posVBO := fun _ _ => (0, 0)
        velVBO := fun _ _ => (0, 0)
        currIndex := 0 }).posVBO g i).1| ≤ 0.5 * 512 ∧
      |((particlesReset 512 512 (fun _ => 0.5) 256
        { nbParts := 4
          posVBO := fun _ _ => (0, 0)
          velVBO := fun _ _ => (0, 0)
          currIndex := 0 }).posVBO g i).2| ≤ 0.5 * 512) ∧
    (∀ g i, |((particlesReset 512 512 (fun _ => 0.5) 256
      { nbParts := 4
        posVBO := fun _ _ => (0, 0)
        velVBO := fun _ _ => (0, 0)
        currIndex := 0 }).velVBO g i).1| ≤ maxSpeed 512 512 ∧
      |((particlesReset 512 512 (fun _ => 0.5) 256
        { nbParts := 4
          posVBO := fun _ _ => (0, 0)
          velVBO := fun _ _ => (0, 0)
          currIndex := 0 }).velVBO g i).2| ≤ maxSpeed 512 512) :=
  reset_randomizes_both_generations 512 512 (fun _ => 0.5) 256
    { nbParts := 4
      posVBO := fun _ _ => (0, 0)
      velVBO := fun _ _ => (0, 0)
      currIndex := 0 } (by norm_num) (by norm_num)
    (fun k => by norm_num)

end

end Waterfall
